import Mathlib

/-!
Verification of the uHAL hardware-access library core (ipbus-software).

The development shallowly embeds the `HwInterface` machinery of
`uhal/uhal/src/common/HwInterface.cpp`, the node tree and address-table
construction it operates on, and the URI record and grammar of
`uhal/grammars/include/uhal/grammars/URIGrammar.hpp`.  C++ raw pointers to
`HwInterface` objects are represented by `Nat` identities; the
`boost::shared_ptr<ClientInterface>` member is represented by a `Nat`
reference into a client store, so that sharing of the client between
interfaces is observable.  Node classes whose implementation is outside the
analysed sources are modelled from the specification, as flagged in the
relevant doc comments.
-/

/-- Access permission of a node, `uhal::defs::NodePermission`:
{`READ`, `WRITE`, `READWRITE`}. -/
inductive NodePermission where
  | READ
  | WRITE
  | READWRITE
deriving DecidableEq, Repr

/-- Transfer mode of a node, `uhal::defs::BlockReadWriteMode`:
{`SINGLE`, `INCREMENTAL`, `NON_INCREMENTAL`, `HIERARCHICAL`}. -/
inductive BlockReadWriteMode where
  | SINGLE
  | INCREMENTAL
  | NON_INCREMENTAL
  | HIERARCHICAL
deriving DecidableEq, Repr

/-- `uhal::defs::NOMASK`: the all-ones 32-bit mask, meaning the whole word. -/
def NOMASK : Nat := 0xFFFFFFFF

/-- Modelled from the spec: the scalar attributes of `uhal::Node`
(`Node.hpp`/`Node.cpp` are outside the analysed sources; a node carries
`id`, 32-bit `address`, `mask`, `permission`, `mode`, `size` and free-form
`tags`). -/
structure NodeData where
  id : String
  address : Nat
  mask : Nat
  permission : NodePermission
  mode : BlockReadWriteMode
  size : Nat
  tags : String
deriving DecidableEq, Repr

/-- Modelled from the spec: a `uhal::Node` is its scalar attributes, the
non-owning back-pointer `mHw` to the owning `HwInterface` (a raw pointer in
the source, here the interface identity, `none` while unclaimed), and the
ordered children `mChildren`. -/
inductive Node where
  | mk (data : NodeData) (mHw : Option Nat) (mChildren : List Node)

/-- The scalar attributes of a node. -/
def Node.data : Node → NodeData
  | .mk d _ _ => d

/-- The back-pointer of a node to its owning hardware interface. -/
def Node.mHw : Node → Option Nat
  | .mk _ h _ => h

/-- The ordered children of a node. -/
def Node.mChildren : Node → List Node
  | .mk _ _ cs => cs

/-- `Node::getId`. -/
def Node.getId (t : Node) : String := t.data.id

/-- `Node::getAddress`. -/
def Node.getAddress (t : Node) : Nat := t.data.address

/-- `Node::getMask`. -/
def Node.getMask (t : Node) : Nat := t.data.mask

/-- `Node::getPermission`. -/
def Node.getPermission (t : Node) : NodePermission := t.data.permission

/-- `Node::getMode`. -/
def Node.getMode (t : Node) : BlockReadWriteMode := t.data.mode

/-- `Node::getSize`. -/
def Node.getSize (t : Node) : Nat := t.data.size

/-- `Node::getTags`. -/
def Node.getTags (t : Node) : String := t.data.tags

mutual

/-- `HwInterface::claimNode`: set the node's back-pointer `mHw` to the given
interface identity, then recurse over `mChildren`. -/
def claimNode (aHw : Nat) : Node → Node
  | .mk d _ cs => .mk d (some aHw) (claimNodeList aHw cs)

/-- The child loop of `HwInterface::claimNode`. -/
def claimNodeList (aHw : Nat) : List Node → List Node
  | [] => []
  | c :: cs => claimNode aHw c :: claimNodeList aHw cs

end

mutual

/-- All nodes reachable from a node: the node itself and, recursively, all
descendants. -/
def allNodes : Node → List Node
  | .mk d h cs => .mk d h cs :: allNodesList cs

/-- All nodes reachable from any node of a list. -/
def allNodesList : List Node → List Node
  | [] => []
  | c :: cs => allNodes c ++ allNodesList cs

end

mutual

/-- Modelled from the spec: `Node::clone` (outside the analysed sources)
deep-copies a node tree, reproducing every attribute, back-pointer and
child. -/
def Node.clone : Node → Node
  | .mk d h cs => .mk d h (Node.cloneList cs)

/-- The child loop of `Node::clone`. -/
def Node.cloneList : List Node → List Node
  | [] => []
  | c :: cs => Node.clone c :: Node.cloneList cs

end

mutual

/-- Erase every back-pointer in a tree, leaving the structural content (the
attributes and the shape); two trees are structurally equal when their
erasures are equal. -/
def stripHw : Node → Node
  | .mk d _ cs => .mk d none (stripHwList cs)

/-- Erase every back-pointer below each node of a list. -/
def stripHwList : List Node → List Node
  | [] => []
  | c :: cs => stripHw c :: stripHwList cs

end

/-- Modelled from the spec: the observable state of a
`uhal::ClientInterface` (outside the analysed sources): the connection's
logical name `id`, its `uri` source, and the timeout period. -/
structure ClientInterface where
  id : String
  uri : String
  timeoutPeriod : Nat
deriving DecidableEq, Repr

/-- The store of live client objects: a `boost::shared_ptr<ClientInterface>`
is a reference (`Nat`) into this store, so several owners can share one
client. -/
def ClientStore : Type := Nat → ClientInterface

/-- Modelled from the spec: `ClientInterface::setTimeoutPeriod` applied to
the client a reference designates. -/
def clientSetTimeoutPeriod (ref : Nat) (aTimeoutPeriod : Nat) (w : ClientStore) : ClientStore :=
  fun r => if r = ref then { w r with timeoutPeriod := aTimeoutPeriod } else w r

/-- Modelled from the spec: `ClientInterface::dispatch` applied to the
client a reference designates; the client-side behaviour is the abstract
state transformer `d`. -/
def clientDispatch (d : ClientInterface → ClientInterface) (ref : Nat) (w : ClientStore) :
    ClientStore :=
  fun r => if r = ref then d (w r) else w r

/-- `uhal::HwInterface`: the shared client handle `mClientInterface` (a
reference into the client store) and the exclusively owned node tree
`mNode`. -/
structure HwInterface where
  mClientInterface : Nat
  mNode : Node

/-- `HwInterface::HwInterface(aClientInterface, aNode)`: store the client
handle and the node tree, then `claimNode(*mNode)`.  `thisId` is the
identity of the newly constructed interface (the C++ `this` pointer). -/
def HwInterface.construct (aClientInterface : Nat) (aNode : Node) (thisId : Nat) : HwInterface :=
  { mClientInterface := aClientInterface, mNode := claimNode thisId aNode }

/-- `HwInterface::HwInterface(otherHw)`: share `otherHw.mClientInterface`,
deep-clone `otherHw.mNode`, then `claimNode(*mNode)` with the new
interface's identity `thisId`. -/
def HwInterface.copy (otherHw : HwInterface) (thisId : Nat) : HwInterface :=
  { mClientInterface := otherHw.mClientInterface
    mNode := claimNode thisId (Node.clone otherHw.mNode) }

/-- `HwInterface::getClient`: the client object the interface holds. -/
def HwInterface.getClient (hw : HwInterface) (w : ClientStore) : ClientInterface :=
  w hw.mClientInterface

/-- `HwInterface::dispatch`: `mClientInterface->dispatch()`. -/
def HwInterface.dispatch (d : ClientInterface → ClientInterface) (hw : HwInterface)
    (w : ClientStore) : ClientStore :=
  clientDispatch d hw.mClientInterface w

/-- `HwInterface::id`: `mClientInterface->id()`. -/
def HwInterface.id (hw : HwInterface) (w : ClientStore) : String :=
  (w hw.mClientInterface).id

/-- `HwInterface::uri`: `mClientInterface->uri()`. -/
def HwInterface.uri (hw : HwInterface) (w : ClientStore) : String :=
  (w hw.mClientInterface).uri

/-- `HwInterface::setTimeoutPeriod`:
`mClientInterface->setTimeoutPeriod(aTimeoutPeriod)`. -/
def HwInterface.setTimeoutPeriod (hw : HwInterface) (aTimeoutPeriod : Nat) (w : ClientStore) :
    ClientStore :=
  clientSetTimeoutPeriod hw.mClientInterface aTimeoutPeriod w

/-- `HwInterface::getTimeoutPeriod`: `mClientInterface->getTimeoutPeriod()`. -/
def HwInterface.getTimeoutPeriod (hw : HwInterface) (w : ClientStore) : Nat :=
  (w hw.mClientInterface).timeoutPeriod

/-- Split a character list into the segments separated by the dots it
contains. -/
def splitDotChars : List Char → List Char → List String
  | acc, [] => [String.mk acc.reverse]
  | acc, c :: cs =>
    if c = '.' then String.mk acc.reverse :: splitDotChars [] cs
    else splitDotChars (c :: acc) cs

/-- Split a dotted path into its segments. -/
def splitDot (p : String) : List String := splitDotChars [] p.data

/-- Find the child with the given id among a list of nodes (ids are
case-sensitive). -/
def findChild (cs : List Node) (i : String) : Option Node :=
  cs.find? (fun c => c.data.id == i)

/-- Modelled from the spec: the descent of `Node::getNode` (outside the
analysed sources) through one path segment after another; a missing
segment is `NoBranchFoundError`, here `none`. -/
def getNodeSegs : Node → List String → Option Node
  | t, [] => some t
  | t, s :: rest =>
    match findChild t.mChildren s with
    | some c => getNodeSegs c rest
    | none => none

/-- Modelled from the spec: `Node::getNode(aId)` — case-sensitive dotted
lookup in the node tree. -/
def Node.getNode (t : Node) (aId : String) : Option Node :=
  getNodeSegs t (splitDot aId)

mutual

/-- Modelled from the spec: the fully qualified paths of a node and all its
descendants, in pre-order with children in construction order; `pre` is the
dotted path of the parent. -/
def nodePathsOf : String → Node → List String
  | pre, .mk d _ cs =>
    let p := if pre = "" then d.id else pre ++ "." ++ d.id
    p :: nodePathsList p cs

/-- The fully qualified paths contributed by each node of a list. -/
def nodePathsList : String → List Node → List String
  | _, [] => []
  | pre, c :: cs => nodePathsOf pre c ++ nodePathsList pre cs

end

/-- Modelled from the spec: `Node::getNodes()` — the fully qualified paths
of every descendant of the node, in stable pre-order. -/
def Node.getNodes (t : Node) : List String :=
  nodePathsList "" t.mChildren

/-- Modelled from the spec: `Node::getNodes(aRegex)` — the subset of
`getNodes()` whose path matches the regular expression; the regex engine is
abstracted as the matching predicate `m`. -/
def Node.getNodesMatching (t : Node) (m : String → Bool) : List String :=
  t.getNodes.filter m

/-- `HwInterface::getNode()`: `*mNode`. -/
def HwInterface.getRootNode (hw : HwInterface) : Node := hw.mNode

/-- `HwInterface::getNode(aId)`: `mNode->getNode(aId)`. -/
def HwInterface.getNode (hw : HwInterface) (aId : String) : Option Node :=
  hw.mNode.getNode aId

/-- `HwInterface::getNodes()`: `mNode->getNodes()`. -/
def HwInterface.getNodes (hw : HwInterface) : List String :=
  hw.mNode.getNodes

/-- `HwInterface::getNodes(aRegex)`: `mNode->getNodes(aRegex)`, the regex
engine abstracted as the matching predicate `m`. -/
def HwInterface.getNodesMatching (hw : HwInterface) (m : String → Bool) : List String :=
  hw.mNode.getNodesMatching m

/-- Modelled from the spec: the raw attributes of one entry of a parsed
address table (XML parsing is an external collaborator): local `id`,
parent-relative address `offset`, `mask`, `permission`, `mode`, `size` and
`tags`. -/
structure RawNodeData where
  id : String
  offset : Nat
  mask : Nat
  permission : NodePermission
  mode : BlockReadWriteMode
  size : Nat
  tags : String
deriving DecidableEq, Repr

/-- Modelled from the spec: a raw address-table entry together with its
children (the children of an included module already merged under the
including node). -/
inductive RawNode where
  | mk (data : RawNodeData) (children : List RawNode)

/-- The raw attributes of a raw address-table entry. -/
def RawNode.data : RawNode → RawNodeData
  | .mk d _ => d

/-- The children of a raw address-table entry. -/
def RawNode.children : RawNode → List RawNode
  | .mk _ cs => cs

mutual

/-- Modelled from the spec: node-tree construction from a parsed address
table (outside the analysed sources).  Each node's 32-bit absolute address
is baked in as the parent's absolute address plus the node's own offset;
a node with an empty `tags` attribute inherits the parent's tag. -/
def buildNode : Nat → String → RawNode → Node
  | base, ptags, .mk d cs =>
    let addr := (base + d.offset) % 4294967296
    let tg := if d.tags = "" then ptags else d.tags
    .mk ⟨d.id, addr, d.mask, d.permission, d.mode, d.size, tg⟩ none (buildNodeList addr tg cs)

/-- The child loop of node-tree construction. -/
def buildNodeList : Nat → String → List RawNode → List Node
  | _, _, [] => []
  | base, ptags, c :: cs => buildNode base ptags c :: buildNodeList base ptags cs

end

/-- Find the raw child with the given id. -/
def rawFind : List RawNode → String → Option RawNode
  | [], _ => none
  | c :: rest, i => if c.data.id = i then some c else rawFind rest i

/-- The sum of the address offsets of the nodes a segment list visits below
a raw node (the visited ancestors of the target and the target itself, the
starting node excluded). -/
def rawOffsetSum : RawNode → List String → Option Nat
  | _, [] => some 0
  | r, s :: rest =>
    match rawFind r.children s with
    | some c => (rawOffsetSum c rest).map (fun k => c.data.offset + k)
    | none => none

/-- Modelled from the spec: the raw address table of the dummy device of
scenario S1, as included under `SUBSYSTEM1` and `SUBSYSTEM2` (module file):
`REG` at offset 1 and `MEM` at offset 2, neither carrying a tag of its
own. -/
def s1SubsystemModule : List RawNode :=
  [ .mk ⟨"REG", 0x1, NOMASK, .READWRITE, .SINGLE, 1, ""⟩ []
  , .mk ⟨"MEM", 0x2, NOMASK, .READWRITE, .INCREMENTAL, 262144, ""⟩ [] ]

/-- Modelled from the spec: the raw address table of the dummy device of
scenario S1. -/
def s1Raw : RawNode :=
  .mk ⟨"TOP", 0x0, NOMASK, .READWRITE, .HIERARCHICAL, 1, ""⟩
  [ .mk ⟨"REG", 0x1, NOMASK, .READWRITE, .SINGLE, 1, "test"⟩ []
  , .mk ⟨"REG_READ_ONLY", 0x2, NOMASK, .READ, .SINGLE, 1, ""⟩ []
  , .mk ⟨"REG_WRITE_ONLY", 0x3, NOMASK, .WRITE, .SINGLE, 1, ""⟩ []
  , .mk ⟨"REG_UPPER_MASK", 0x4, 0xFFFF0000, .READWRITE, .SINGLE, 1, ""⟩ []
  , .mk ⟨"REG_LOWER_MASK", 0x4, 0x0000FFFF, .READWRITE, .SINGLE, 1, ""⟩ []
  , .mk ⟨"FIFO", 0x100, NOMASK, .READWRITE, .NON_INCREMENTAL, 262144, "test"⟩ []
  , .mk ⟨"MEM", 0x100000, NOMASK, .READWRITE, .INCREMENTAL, 262144, ""⟩ []
  , .mk ⟨"SUBSYSTEM1", 0x200000, NOMASK, .READWRITE, .HIERARCHICAL, 1, "test"⟩ s1SubsystemModule
  , .mk ⟨"SUBSYSTEM2", 0x300000, NOMASK, .READWRITE, .HIERARCHICAL, 1, "test"⟩ s1SubsystemModule
  , .mk ⟨"SMALL_MEM", 0x400000, NOMASK, .READWRITE, .INCREMENTAL, 256, ""⟩ []
  , .mk ⟨"LARGE_MEM", 0x500000, NOMASK, .READWRITE, .INCREMENTAL, 2621440, ""⟩ [] ]

/-- The S1 node tree, built from the raw table with device base address 0
and no ambient tag. -/
def s1Node : Node := buildNode 0 "" s1Raw

/-- The S1 hardware interface: client handle 0, interface identity 1. -/
def s1Hw : HwInterface := HwInterface.construct 0 s1Node 1

/-- `uhal::URI` (`URIGrammar.hpp`, `BOOST_FUSION_ADAPT_STRUCT`): a record of
exactly six fields — `mProtocol`, `mHostname`, `mPort`, `mPath`,
`mExtension` and the ordered key/value argument sequence `mArguments`. -/
structure URI where
  mProtocol : String
  mHostname : String
  mPort : String
  mPath : String
  mExtension : String
  mArguments : List (String × String)
deriving DecidableEq, Repr

/-- ASCII whitespace, the character class of the grammar's
`boost::spirit::ascii::space_type` skipper. -/
def isSpaceChar (c : Char) : Bool :=
  (c = ' ') || (c = '\t') || (c = '\n') || (c = '\r') || (c = '\x0b') || (c = '\x0c')

/-- Remove every ASCII whitespace character, as the grammar's `space_type`
skipper does between tokens. -/
def stripSpaces (cs : List Char) : List Char :=
  cs.filter (fun c => !(isSpaceChar c))

/-- Split a character list at the first occurrence of a separator: the part
before it and, when the separator occurs, the part after it. -/
def splitFirst (sep : Char) : List Char → List Char × Option (List Char)
  | [] => ([], none)
  | c :: cs =>
    if c = sep then ([], some cs)
    else
      let r := splitFirst sep cs
      (c :: r.1, r.2)

/-- Split a character list at the first occurrence of the scheme separator
`://`: the protocol part before it and the remainder after it, `none` when
the separator does not occur. -/
def splitScheme : List Char → Option (List Char × List Char)
  | [] => none
  | c :: cs =>
    if c = ':' ∧ cs.take 2 = ['/', '/'] then some ([], cs.drop 2)
    else (splitScheme cs).map (fun r => (c :: r.1, r.2))

/-- The grammar's `protocol` rule: an alphabetic character followed by
alphanumeric characters, `-` or `.`. -/
def protocolOk (cs : List Char) : Bool :=
  match cs with
  | [] => false
  | c :: rest => c.isAlpha && rest.all (fun x => x.isAlpha || x.isDigit || x = '-' || x = '.')

/-- The grammar's `port` rule applied to an optional port part: absent is
fine; present means one or more digits. -/
def portOk : Option (List Char) → Bool
  | none => true
  | some p => !(p.isEmpty) && p.all Char.isDigit

/-- Split a character list at every occurrence of a separator, accumulating
the current segment in reverse. -/
def splitAllChars (sep : Char) : List Char → List Char → List (List Char)
  | acc, [] => [acc.reverse]
  | acc, c :: cs =>
    if c = sep then acc.reverse :: splitAllChars sep [] cs
    else splitAllChars sep (c :: acc) cs

/-- Split a character list at every occurrence of a separator. -/
def splitAll (sep : Char) (cs : List Char) : List (List Char) :=
  splitAllChars sep [] cs

/-- The grammar's `data_pairs` rule: one `key=value` pair, the key
non-empty. -/
def parseKv (cs : List Char) : Option (String × String) :=
  match splitFirst '=' cs with
  | (_, none) => none
  | (k, some v) => if k.isEmpty then none else some (String.mk k, String.mk v)

/-- The grammar's `data_pairs_vector` rule body: every `&`-separated item
must be a well-formed pair. -/
def parseKvs : List (List Char) → Option (List (String × String))
  | [] => some []
  | item :: rest =>
    match parseKv item, parseKvs rest with
    | some p, some ps => some (p :: ps)
    | _, _ => none

/-- Keys are pairwise distinct within the argument sequence. -/
def keysUnique : List (String × String) → Bool
  | [] => true
  | p :: rest => rest.all (fun q => !(q.1 == p.1)) && keysUnique rest

/-- Modelled from the spec: the URI grammar
`protocol "://" [host] [":" port] ["/" path ["." ext]] ["?" kvs]` applied
to a whitespace-free character list (rule bodies of `URIGrammar.cpp` are
outside the analysed sources; the rule names and the `space_type` skipper
are those of `URIGrammar.hpp`).  Components absent from the input are the
empty string; duplicate keys in the argument sequence are an error. -/
def parseChars (cs : List Char) : Except String URI :=
  match splitScheme cs with
  | none => .error "URIParseError: expected protocol://"
  | some (proto, rest) =>
    if protocolOk proto then
      match splitFirst '?' rest with
      | (mainPart, q) =>
        match splitFirst '/' mainPart with
        | (hostport, pth) =>
          match splitFirst ':' hostport with
          | (host, po) =>
            if portOk po then
              match splitFirst '.' (pth.getD []) with
              | (pa, ex) =>
                match q with
                | none =>
                  .ok (URI.mk (String.mk proto) (String.mk host) (String.mk (po.getD []))
                    (String.mk pa) (String.mk (ex.getD [])) [])
                | some qs =>
                  match parseKvs (splitAll '&' qs) with
                  | none => .error "URIParseError: malformed key-value pair"
                  | some args =>
                    if keysUnique args then
                      .ok (URI.mk (String.mk proto) (String.mk host) (String.mk (po.getD []))
                        (String.mk pa) (String.mk (ex.getD [])) args)
                    else .error "URIParseError: duplicate key"
            else .error "URIParseError: malformed port"
    else .error "URIParseError: malformed protocol"

/-- Modelled from the spec: parsing a URI string — the `space_type` skipper
discards ASCII whitespace between tokens, then the grammar applies. -/
def parseURI (s : String) : Except String URI :=
  parseChars (stripSpaces s.data)

/-- Structural induction for the nested `Node` tree: to prove a property of
every node it suffices to prove it for a node from the property of each
child. -/
theorem Node.ind (P : Node → Prop)
    (step : ∀ d h cs, (∀ c ∈ cs, P c) → P (.mk d h cs)) : ∀ t, P t := by
  have key : ∀ n, ∀ t : Node, sizeOf t ≤ n → P t := by
    intro n
    induction n with
    | zero =>
      intro t h
      cases t with
      | mk d hw cs =>
        simp only [Node.mk.sizeOf_spec] at h
        omega
    | succ n ih =>
      intro t hle
      cases t with
      | mk d hw cs =>
        apply step
        intro c hc
        apply ih
        have h1 := List.sizeOf_lt_of_mem hc
        simp only [Node.mk.sizeOf_spec] at hle
        omega
  intro t
  exact key (sizeOf t) t le_rfl

/-- The child loop of `claimNode` is a map of the claim over the list. -/
theorem claimNodeList_eq_map (aHw : Nat) (cs : List Node) :
    claimNodeList aHw cs = cs.map (claimNode aHw) := by
  induction cs with
  | nil => rfl
  | cons c cs ih => simp [claimNodeList, ih]

/-- Membership in the nodes reachable from a list of roots. -/
theorem mem_allNodesList (n : Node) (cs : List Node) :
    n ∈ allNodesList cs ↔ ∃ c ∈ cs, n ∈ allNodes c := by
  induction cs with
  | nil => simp [allNodesList]
  | cons c cs ih => simp [allNodesList, ih]

/-- Every node reachable from a claimed tree carries the claiming
interface's identity in its back-pointer. -/
theorem mHw_of_mem_claimNode (aHw : Nat) :
    ∀ t : Node, ∀ n ∈ allNodes (claimNode aHw t), n.mHw = some aHw := by
  refine Node.ind (fun t => ∀ n ∈ allNodes (claimNode aHw t), n.mHw = some aHw) ?_
  intro d h cs ih n hn
  simp only [claimNode, allNodes, List.mem_cons] at hn
  rcases hn with hn | hn
  · subst hn
    rfl
  · rw [claimNodeList_eq_map, mem_allNodesList] at hn
    obtain ⟨c', hc', hmem⟩ := hn
    rw [List.mem_map] at hc'
    obtain ⟨c, hc, rfl⟩ := hc'
    exact ih c hc n hmem

/-- The root of a claimed tree carries the claiming interface's identity. -/
theorem mHw_claimNode (aHw : Nat) (t : Node) :
    (claimNode aHw t).mHw = some aHw := by
  cases t
  rfl

/-- The child loop of `Node::clone` on a list whose elements clone to
themselves. -/
theorem cloneList_eq_self_of (cs : List Node) (h : ∀ c ∈ cs, Node.clone c = c) :
    Node.cloneList cs = cs := by
  induction cs with
  | nil => rfl
  | cons c cs ih =>
    rw [Node.cloneList, h c (by simp), ih (fun c' hc' => h c' (by simp [hc']))]

/-- In the functional embedding a deep clone is the identity on the tree
value: the clone reproduces every attribute, back-pointer and child. -/
theorem clone_eq_self : ∀ t : Node, Node.clone t = t := by
  refine Node.ind (fun t => Node.clone t = t) ?_
  intro d h cs ih
  rw [Node.clone, cloneList_eq_self_of cs ih]

/-- Erasing back-pointers of mapped children, when the map commutes with
the erasure element-wise. -/
theorem stripHwList_map_eq (f : Node → Node) (cs : List Node)
    (h : ∀ c ∈ cs, stripHw (f c) = stripHw c) : stripHwList (cs.map f) = stripHwList cs := by
  induction cs with
  | nil => rfl
  | cons c cs ih =>
    simp only [List.map_cons, stripHwList]
    rw [h c (by simp), ih (fun c' hc' => h c' (by simp [hc']))]

/-- Claiming a tree only rewrites back-pointers: the structural content is
untouched. -/
theorem stripHw_claimNode (aHw : Nat) : ∀ t : Node, stripHw (claimNode aHw t) = stripHw t := by
  refine Node.ind (fun t => stripHw (claimNode aHw t) = stripHw t) ?_
  intro d h cs ih
  simp only [claimNode, stripHw, claimNodeList_eq_map]
  rw [stripHwList_map_eq _ cs ih]

/-- C1: for every node tree, constructing an `HwInterface` from a client
and a root node sets the hardware-interface back-pointer of every node
reachable from that root (the root and, recursively, all descendants) to
the newly constructed `HwInterface`. -/
theorem hwInterface_construct_claims_every_node (aClientInterface : Nat) (aNode : Node)
    (thisId : Nat) :
    ∀ n ∈ allNodes (HwInterface.construct aClientInterface aNode thisId).mNode,
      n.mHw = some thisId := by
  intro n hn
  exact mHw_of_mem_claimNode thisId aNode n hn

/-- Witness for C1: in the claimed two-level S1 tree, the `REG` child node
carries the back-pointer of the interface of identity 1. -/
theorem hwInterface_construct_claims_every_node_witness :
    (Node.mk ⟨"REG", 0x1, NOMASK, .READWRITE, .SINGLE, 1, "test"⟩ (some 1) []).mHw
      = some 1 :=
  hwInterface_construct_claims_every_node 0 s1Node 1
    (Node.mk ⟨"REG", 0x1, NOMASK, .READWRITE, .SINGLE, 1, "test"⟩ (some 1) [])
    (List.mem_cons_of_mem _ (List.mem_cons_self _ _))

/-- C2: copy-constructing an `HwInterface` produces a deep clone of the
node tree — a tree structurally equal to the original's but a different
tree value — in which every node's back-pointer is the copy, while every
node of the original's tree still points to the original. -/
theorem hwInterface_copy_deep_clones (aClientInterface : Nat) (aNode : Node)
    (oldId newId : Nat) (hne : newId ≠ oldId) :
    stripHw ((HwInterface.construct aClientInterface aNode oldId).copy newId).mNode
        = stripHw (HwInterface.construct aClientInterface aNode oldId).mNode
      ∧ (∀ n ∈ allNodes ((HwInterface.construct aClientInterface aNode oldId).copy newId).mNode,
          n.mHw = some newId)
      ∧ (∀ n ∈ allNodes (HwInterface.construct aClientInterface aNode oldId).mNode,
          n.mHw = some oldId)
      ∧ ((HwInterface.construct aClientInterface aNode oldId).copy newId).mNode
        ≠ (HwInterface.construct aClientInterface aNode oldId).mNode := by
  refine ⟨?_, ?_, ?_, ?_⟩
  · show stripHw (claimNode newId (Node.clone (claimNode oldId aNode)))
      = stripHw (claimNode oldId aNode)
    rw [clone_eq_self, stripHw_claimNode]
  · intro n hn
    exact mHw_of_mem_claimNode newId _ n hn
  · intro n hn
    exact mHw_of_mem_claimNode oldId aNode n hn
  · intro heq
    have h1 : (claimNode newId (Node.clone (claimNode oldId aNode))).mHw
        = (claimNode oldId aNode).mHw := congrArg Node.mHw heq
    rw [mHw_claimNode, mHw_claimNode] at h1
    exact hne (Option.some_injective _ h1)

/-- Witness for C2: the copy of the S1 interface (identity 1) under the new
identity 2 clones the S1 tree and re-claims it, leaving the original
claimed by 1. -/
theorem hwInterface_copy_deep_clones_witness :
    stripHw ((HwInterface.construct 0 s1Node 1).copy 2).mNode
        = stripHw (HwInterface.construct 0 s1Node 1).mNode
      ∧ (∀ n ∈ allNodes ((HwInterface.construct 0 s1Node 1).copy 2).mNode,
          n.mHw = some 2)
      ∧ (∀ n ∈ allNodes (HwInterface.construct 0 s1Node 1).mNode,
          n.mHw = some 1)
      ∧ ((HwInterface.construct 0 s1Node 1).copy 2).mNode
        ≠ (HwInterface.construct 0 s1Node 1).mNode :=
  hwInterface_copy_deep_clones 0 s1Node 1 2 (by decide)

/-- C3: `HwInterface` adds no behaviour of its own — `getNode`, `getNodes`
(with and without a pattern) return exactly what the root node's
operations return, and `dispatch`, `id`, `uri`, `setTimeoutPeriod` and
`getTimeoutPeriod` return exactly what the owning client's corresponding
operations return. -/
theorem hwInterface_forwards_operations (hw : HwInterface) (w : ClientStore) (p : String)
    (m : String → Bool) (t : Nat) (d : ClientInterface → ClientInterface) :
    hw.getNode p = hw.getRootNode.getNode p
      ∧ hw.getNodes = hw.getRootNode.getNodes
      ∧ hw.getNodesMatching m = hw.getRootNode.getNodesMatching m
      ∧ hw.dispatch d w = clientDispatch d hw.mClientInterface w
      ∧ hw.id w = (hw.getClient w).id
      ∧ hw.uri w = (hw.getClient w).uri
      ∧ hw.setTimeoutPeriod t w = clientSetTimeoutPeriod hw.mClientInterface t w
      ∧ hw.getTimeoutPeriod w = (hw.getClient w).timeoutPeriod :=
  ⟨rfl, rfl, rfl, rfl, rfl, rfl, rfl, rfl⟩

/-- C10: copy-constructing an `HwInterface` shares the original's transport
client rather than cloning it: both interfaces hold the same client
reference, the copy's `id`, `uri` and `getTimeoutPeriod` return the
original's values, and a `setTimeoutPeriod` performed through either
interface is observed through `getTimeoutPeriod` on the other. -/
theorem hwInterface_copy_shares_client (hw : HwInterface) (newId : Nat) (w : ClientStore)
    (t : Nat) :
    (hw.copy newId).mClientInterface = hw.mClientInterface
      ∧ (hw.copy newId).id w = hw.id w
      ∧ (hw.copy newId).uri w = hw.uri w
      ∧ (hw.copy newId).getTimeoutPeriod w = hw.getTimeoutPeriod w
      ∧ (hw.copy newId).getTimeoutPeriod (hw.setTimeoutPeriod t w) = t
      ∧ hw.getTimeoutPeriod ((hw.copy newId).setTimeoutPeriod t w) = t := by
  refine ⟨rfl, rfl, rfl, rfl, ?_, ?_⟩
  · simp [HwInterface.copy, HwInterface.getTimeoutPeriod, HwInterface.setTimeoutPeriod,
      clientSetTimeoutPeriod]
  · simp [HwInterface.copy, HwInterface.getTimeoutPeriod, HwInterface.setTimeoutPeriod,
      clientSetTimeoutPeriod]

/-- C4: for the dummy-device address table of scenario S1, every attribute
queried through `getNode` returns exactly the specified metadata: `REG` has
address 0x1, permission `READWRITE`, size 1, mask `NOMASK`, mode `SINGLE`
and tag "test"; `REG_READ_ONLY` has address 0x2 and permission `READ`;
`REG_WRITE_ONLY` has address 0x3 and permission `WRITE`; `REG_UPPER_MASK`
and `REG_LOWER_MASK` both sit at address 0x4 with masks 0xFFFF0000 and
0x0000FFFF; `FIFO` is at 0x100 with size 262144 and mode `NON_INCREMENTAL`;
`MEM` is at 0x100000 with size 262144 and mode `INCREMENTAL`; `SMALL_MEM`
is at 0x400000 with size 256; `LARGE_MEM` is at 0x500000 with size
2621440. -/
theorem s1_metainfo_exact :
    (s1Hw.getNode "REG").map
        (fun n => (n.getAddress, n.getPermission, n.getSize, n.getMask, n.getMode, n.getTags))
        = some (0x1, .READWRITE, 1, NOMASK, .SINGLE, "test")
      ∧ (s1Hw.getNode "REG_READ_ONLY").map (fun n => (n.getAddress, n.getPermission))
        = some (0x2, .READ)
      ∧ (s1Hw.getNode "REG_WRITE_ONLY").map (fun n => (n.getAddress, n.getPermission))
        = some (0x3, .WRITE)
      ∧ (s1Hw.getNode "REG_UPPER_MASK").map (fun n => (n.getAddress, n.getMask))
        = some (0x4, 0xFFFF0000)
      ∧ (s1Hw.getNode "REG_LOWER_MASK").map (fun n => (n.getAddress, n.getMask))
        = some (0x4, 0x0000FFFF)
      ∧ (s1Hw.getNode "FIFO").map (fun n => (n.getAddress, n.getSize, n.getMode))
        = some (0x100, 262144, .NON_INCREMENTAL)
      ∧ (s1Hw.getNode "MEM").map (fun n => (n.getAddress, n.getSize, n.getMode))
        = some (0x100000, 262144, .INCREMENTAL)
      ∧ (s1Hw.getNode "SMALL_MEM").map (fun n => (n.getAddress, n.getSize))
        = some (0x400000, 256)
      ∧ (s1Hw.getNode "LARGE_MEM").map (fun n => (n.getAddress, n.getSize))
        = some (0x500000, 2621440) :=
  ⟨rfl, rfl, rfl, rfl, rfl, rfl, rfl, rfl, rfl⟩

/-- Looking a segment up among built children is looking it up among the
raw children and building the hit. -/
theorem findChild_buildNodeList (a : Nat) (g : String) (cs : List RawNode) (s : String) :
    findChild (buildNodeList a g cs) s = (rawFind cs s).map (buildNode a g) := by
  induction cs with
  | nil => rfl
  | cons c rest ih =>
    cases c with
    | mk d ccs =>
      by_cases h : d.id = s
      · simp [buildNodeList, findChild, List.find?, rawFind, buildNode, Node.data,
          RawNode.data, h]
      · have hb : (d.id == s) = false := by simp [h]
        simp only [buildNodeList, findChild, List.find?, rawFind, buildNode, Node.data,
          RawNode.data, hb, if_neg h]
        exact ih

/-- Addresses are baked in at tree construction: a node reached by a
segment list in a built tree stores, as its absolute address, the build
base plus the root's offset plus the sum of the offsets along the path,
reduced to 32 bits. -/
theorem buildNode_address_offset_sum :
    ∀ (segs : List String) (r : RawNode) (base : Nat) (ptags : String) (n : Node),
      getNodeSegs (buildNode base ptags r) segs = some n →
      ∃ k, rawOffsetSum r segs = some k
        ∧ n.getAddress = (base + r.data.offset + k) % 4294967296 := by
  intro segs
  induction segs with
  | nil =>
    intro r base ptags n h
    cases r with
    | mk d cs =>
      simp only [getNodeSegs] at h
      obtain rfl := Option.some.inj h
      exact ⟨0, rfl, by simp [buildNode, Node.getAddress, Node.data, RawNode.data]⟩
  | cons s rest ih =>
    intro r base ptags n h
    cases r with
    | mk d cs =>
      simp only [getNodeSegs] at h
      rw [show (buildNode base ptags (.mk d cs)).mChildren
          = buildNodeList ((base + d.offset) % 4294967296)
            (if d.tags = "" then ptags else d.tags) cs from rfl] at h
      rw [findChild_buildNodeList] at h
      cases hf : rawFind cs s with
      | none => rw [hf] at h; simp at h
      | some c =>
        rw [hf] at h
        simp only [Option.map_some'] at h
        obtain ⟨k, hk, ha⟩ := ih c ((base + d.offset) % 4294967296) _ n h
        refine ⟨c.data.offset + k, ?_, ?_⟩
        · simp [rawOffsetSum, RawNode.children, hf, hk]
        · rw [ha]
          show ((base + d.offset) % 4294967296 + c.data.offset + k) % 4294967296
            = (base + d.offset + (c.data.offset + k)) % 4294967296
          omega

/-- C5: a node reached by a dotted path has, as its absolute address, the
sum of its ancestors' address offsets plus its own offset (reduced to 32
bits), the addresses being baked in at tree construction; in the S1 tree
`SUBSYSTEM1.REG` is at 0x200000 + 1 and `SUBSYSTEM1.MEM` at
0x200000 + 2. -/
theorem s1_addresses_baked_in :
    (∀ (segs : List String) (r : RawNode) (base : Nat) (ptags : String) (n : Node),
        getNodeSegs (buildNode base ptags r) segs = some n →
        ∃ k, rawOffsetSum r segs = some k
          ∧ n.getAddress = (base + r.data.offset + k) % 4294967296)
      ∧ (s1Hw.getNode "SUBSYSTEM1.REG").map Node.getAddress = some 0x200001
      ∧ (s1Hw.getNode "SUBSYSTEM1.MEM").map Node.getAddress = some 0x200002 :=
  ⟨buildNode_address_offset_sum, rfl, rfl⟩

/-- Witness for C5: descending to `SUBSYSTEM1.MEM` in the built S1 tree
yields the offset sum 0x200002 and the stored address matches it. -/
theorem s1_addresses_baked_in_witness :
    ∃ k, rawOffsetSum s1Raw ["SUBSYSTEM1", "MEM"] = some k
      ∧ (Node.mk ⟨"MEM", 0x200002, NOMASK, .READWRITE, .INCREMENTAL, 262144, "test"⟩
          none []).getAddress
        = (0 + s1Raw.data.offset + k) % 4294967296 :=
  s1_addresses_baked_in.1 ["SUBSYSTEM1", "MEM"] s1Raw 0 ""
    (Node.mk ⟨"MEM", 0x200002, NOMASK, .READWRITE, .INCREMENTAL, 262144, "test"⟩ none []) rfl

/-- C6: a node with an empty `tags` attribute inherits the tag of the node
it is included under; in the S1 tree `SUBSYSTEM1.MEM` and `SUBSYSTEM1.REG`
both carry the subsystem's tag "test" even though the top-level `MEM`
node's `tags` attribute is the empty string. -/
theorem s1_tag_inheritance :
    (∀ (base : Nat) (ptags : String) (r : RawNode), r.data.tags = "" →
        (buildNode base ptags r).getTags = ptags)
      ∧ (s1Hw.getNode "SUBSYSTEM1.MEM").map Node.getTags = some "test"
      ∧ (s1Hw.getNode "SUBSYSTEM1.REG").map Node.getTags = some "test"
      ∧ (s1Hw.getNode "MEM").map Node.getTags = some "" := by
  refine ⟨?_, rfl, rfl, rfl⟩
  intro base ptags r h
  cases r with
  | mk d cs =>
    simp only [RawNode.data] at h
    simp [buildNode, Node.getTags, Node.data, h]

/-- Witness for C6: the untagged raw `MEM` module entry, built under a node
tagged "test", carries the tag "test". -/
theorem s1_tag_inheritance_witness :
    (buildNode 0x200000 "test"
      (.mk ⟨"MEM", 0x2, NOMASK, .READWRITE, .INCREMENTAL, 262144, ""⟩ [])).getTags = "test" :=
  s1_tag_inheritance.1 0x200000 "test"
    (.mk ⟨"MEM", 0x2, NOMASK, .READWRITE, .INCREMENTAL, 262144, ""⟩ []) rfl

/-- A separator that does not occur splits nothing off. -/
theorem splitFirst_not_mem (sep : Char) (cs : List Char) (h : sep ∉ cs) :
    splitFirst sep cs = (cs, none) := by
  induction cs with
  | nil => rfl
  | cons c cs ih =>
    simp only [List.mem_cons, not_or] at h
    simp only [splitFirst]
    rw [if_neg (fun heq => h.1 heq.symm), ih h.2]

/-- The scheme separator `://` is found right after a protocol part free of
colons. -/
theorem splitScheme_append (a b : List Char) (h : ':' ∉ a) :
    splitScheme (a ++ ':' :: '/' :: '/' :: b) = some (a, b) := by
  induction a with
  | nil => simp [splitScheme]
  | cons c a' ih =>
    simp only [List.mem_cons, not_or] at h
    simp only [List.cons_append, splitScheme]
    rw [if_neg (fun hc => h.1 hc.1.symm)]
    simp only [List.append_eq]
    rw [ih h.2]
    rfl

/-- A well-formed protocol part contains no colon. -/
theorem protocolOk_no_colon (p : List Char) (h : protocolOk p = true) : ':' ∉ p := by
  cases p with
  | nil => simp
  | cons c rest =>
    simp only [protocolOk, Bool.and_eq_true, List.all_eq_true] at h
    intro hmem
    rcases List.mem_cons.mp hmem with heq | hm
    · rw [← heq] at h
      exact absurd h.1 (by decide)
    · exact absurd (h.2 _ hm) (by decide)

/-- Every accepted input yields the empty string for every component the
input lacks, whatever mix of components is present: no `?` after the scheme
means no arguments, no `/` means empty path and extension, no `:` in the
authority part means empty port, no `.` in the path part means empty
extension, and an empty authority part means an empty hostname. -/
theorem parseURI_absent_components_empty (s : String) (u : URI)
    (h : parseURI s = .ok u) (proto rest : List Char)
    (hsch : splitScheme (stripSpaces s.data) = some (proto, rest)) :
    ((splitFirst '?' rest).2 = none → u.mArguments = [])
      ∧ ((splitFirst '/' (splitFirst '?' rest).1).2 = none
          → u.mPath = "" ∧ u.mExtension = "")
      ∧ ((splitFirst ':' (splitFirst '/' (splitFirst '?' rest).1).1).2 = none → u.mPort = "")
      ∧ ((splitFirst '.' ((splitFirst '/' (splitFirst '?' rest).1).2.getD [])).2 = none
          → u.mExtension = "")
      ∧ ((splitFirst ':' (splitFirst '/' (splitFirst '?' rest).1).1).1 = []
          → u.mHostname = "") := by
  unfold parseURI parseChars at h
  simp only [hsch] at h
  rcases hq : splitFirst '?' rest with ⟨mainPart, q⟩
  rcases hpth : splitFirst '/' mainPart with ⟨hostport, pth⟩
  rcases hpo : splitFirst ':' hostport with ⟨host, po⟩
  simp only [hq, hpth, hpo] at h ⊢
  by_cases hprot : protocolOk proto = true
  · rw [if_pos hprot] at h
    by_cases hport : portOk po = true
    · rw [if_pos hport] at h
      rcases hex : splitFirst '.' (pth.getD []) with ⟨pa, ex⟩
      simp only [hex] at h ⊢
      cases q with
      | none =>
        obtain rfl := (Except.ok.inj h).symm
        refine ⟨fun _ => rfl, ?_, ?_, ?_, ?_⟩
        · intro hn
          subst hn
          rw [show splitFirst '.' ((none : Option (List Char)).getD []) = ([], none)
            from rfl] at hex
          injection hex with h1 h2
          subst h1
          subst h2
          exact ⟨rfl, rfl⟩
        · intro hn
          subst hn
          rfl
        · intro hn
          subst hn
          rfl
        · intro hn
          subst hn
          rfl
      | some qs =>
        cases hkvs : parseKvs (splitAll '&' qs) with
        | none =>
          simp only [hkvs] at h
          exact absurd h (by simp)
        | some args =>
          simp only [hkvs] at h
          by_cases huniq : keysUnique args = true
          · rw [if_pos huniq] at h
            obtain rfl := (Except.ok.inj h).symm
            refine ⟨fun hn => absurd hn (by simp), ?_, ?_, ?_, ?_⟩
            · intro hn
              subst hn
              rw [show splitFirst '.' ((none : Option (List Char)).getD []) = ([], none)
                from rfl] at hex
              injection hex with h1 h2
              subst h1
              subst h2
              exact ⟨rfl, rfl⟩
            · intro hn
              subst hn
              rfl
            · intro hn
              subst hn
              rfl
            · intro hn
              subst hn
              rfl
          · rw [if_neg huniq] at h
            exact absurd h (by simp)
    · rw [if_neg hport] at h
      exact absurd h (by simp)
  · rw [if_neg hprot] at h
    exact absurd h (by simp)

/-- C7: a parse result is a record of exactly six fields — protocol,
hostname, port, path, extension and the ordered key/value argument
sequence — whose equality is structural equality of all six fields, and
every component absent from the input is the empty string: a URI of the
form `protocol://host` parses to the record with empty port, path,
extension and arguments, and in general every accepted input, whatever mix
of components it carries, yields `""` for each component it lacks. -/
theorem uri_six_field_record :
    (∀ u v : URI, u = v ↔ (u.mProtocol = v.mProtocol ∧ u.mHostname = v.mHostname
        ∧ u.mPort = v.mPort ∧ u.mPath = v.mPath ∧ u.mExtension = v.mExtension
        ∧ u.mArguments = v.mArguments))
      ∧ (∀ proto host : List Char, protocolOk proto = true →
          '?' ∉ host → '/' ∉ host → ':' ∉ host →
          parseChars (proto ++ ':' :: '/' :: '/' :: host)
            = .ok (URI.mk (String.mk proto) (String.mk host) "" "" "" []))
      ∧ (∀ (s : String) (u : URI), parseURI s = .ok u →
          ∀ proto rest : List Char, splitScheme (stripSpaces s.data) = some (proto, rest) →
            ((splitFirst '?' rest).2 = none → u.mArguments = [])
              ∧ ((splitFirst '/' (splitFirst '?' rest).1).2 = none
                  → u.mPath = "" ∧ u.mExtension = "")
              ∧ ((splitFirst ':' (splitFirst '/' (splitFirst '?' rest).1).1).2 = none
                  → u.mPort = "")
              ∧ ((splitFirst '.' ((splitFirst '/' (splitFirst '?' rest).1).2.getD [])).2 = none
                  → u.mExtension = "")
              ∧ ((splitFirst ':' (splitFirst '/' (splitFirst '?' rest).1).1).1 = []
                  → u.mHostname = "")) := by
  refine ⟨?_, ?_, ?_⟩
  · intro u v
    constructor
    · rintro rfl
      exact ⟨rfl, rfl, rfl, rfl, rfl, rfl⟩
    · rintro ⟨h1, h2, h3, h4, h5, h6⟩
      cases u
      cases v
      simp_all
  · intro proto host hp hq hs hc
    simp only [parseChars, splitScheme_append _ _ (protocolOk_no_colon proto hp), hp, if_true,
      splitFirst_not_mem _ _ hq, splitFirst_not_mem _ _ hs, splitFirst_not_mem _ _ hc]
    rfl
  · intro s u h proto rest hsch
    exact parseURI_absent_components_empty s u h proto rest hsch

/-- Witness for C7: the accepted mixed input `a://h:1` — port present,
path, extension and query absent — yields the empty string for its absent
path and extension. -/
theorem uri_six_field_record_witness :
    (URI.mk "a" "h" "1" "" "" []).mPath = "" ∧ (URI.mk "a" "h" "1" "" "" []).mExtension = "" :=
  (uri_six_field_record.2.2 "a://h:1" (URI.mk "a" "h" "1" "" "" []) rfl
    "a".data "h:1".data rfl).2.1 rfl

/-- The parser's key-uniqueness check is exactly no-duplicates of the key
projection. -/
theorem keysUnique_nodup (l : List (String × String)) (h : keysUnique l = true) :
    (l.map Prod.fst).Nodup := by
  induction l with
  | nil => simp
  | cons p rest ih =>
    simp only [keysUnique, Bool.and_eq_true, List.all_eq_true] at h
    simp only [List.map_cons, List.nodup_cons]
    refine ⟨?_, ih h.2⟩
    intro hmem
    obtain ⟨q, hq, hqe⟩ := List.mem_map.mp hmem
    have hne := h.1 q hq
    simp only [Bool.not_eq_eq_eq_not, Bool.not_true, beq_eq_false_iff_ne, ne_eq] at hne
    exact hne hqe

/-- C8: an input whose query part contains two key/value pairs with the
same key does not parse: every accepted URI has pairwise-distinct argument
keys, and the concrete duplicate input `?a=1&a=2` fails with a
`URIParseError`. -/
theorem uri_duplicate_keys_rejected :
    (∀ (s : String) (u : URI), parseURI s = .ok u → (u.mArguments.map Prod.fst).Nodup)
      ∧ parseURI "ipbusudp-2.0://localhost?a=1&a=2"
        = .error "URIParseError: duplicate key" := by
  constructor
  · intro s u h
    unfold parseURI parseChars at h
    split at h
    · exact absurd h (by simp)
    · split at h
      · split at h
        · split at h
          · split at h
            · split at h
              · split at h
                · split at h
                  · obtain rfl := (Except.ok.inj h).symm
                    simp
                  · split at h
                    · exact absurd h (by simp)
                    · split at h
                      · obtain rfl := (Except.ok.inj h).symm
                        simpa using keysUnique_nodup _ (by assumption)
                      · exact absurd h (by simp)
              · exact absurd h (by simp)
      · exact absurd h (by simp)
  · rfl

/-- Witness for C8: the accepted input `a://h?x=1&y=2` yields
pairwise-distinct keys. -/
theorem uri_duplicate_keys_rejected_witness :
    ((URI.mk "a" "h" "" "" "" [("x", "1"), ("y", "2")]).mArguments.map Prod.fst).Nodup :=
  uri_duplicate_keys_rejected.1 "a://h?x=1&y=2"
    (URI.mk "a" "h" "" "" "" [("x", "1"), ("y", "2")]) rfl

/-- C9: URI parsing is invariant under whitespace between tokens — any
input whose whitespace-free character content agrees with that of an
accepted input parses to the structurally equal record. -/
theorem uri_whitespace_insensitive (s t : String) (u : URI)
    (h : parseURI s = .ok u) (hws : stripSpaces t.data = stripSpaces s.data) :
    parseURI t = .ok u := by
  unfold parseURI at *
  rw [hws]
  exact h

/-- Witness for C9: inserting spaces around the tokens of
`ipbusudp-2.0://localhost:50001` leaves the parse result unchanged. -/
theorem uri_whitespace_insensitive_witness :
    parseURI "ipbusudp-2.0 :// localhost : 50001"
      = .ok (URI.mk "ipbusudp-2.0" "localhost" "50001" "" "" []) :=
  uri_whitespace_insensitive "ipbusudp-2.0://localhost:50001"
    "ipbusudp-2.0 :// localhost : 50001"
    (URI.mk "ipbusudp-2.0" "localhost" "50001" "" "" []) rfl rfl
